import Mathlib

/-!
Shallow embedding of the LAVA windowed vibration-analysis core
(`src/App.tsx`): sample-rate inference (`calculateActualSampleRate`),
window segmentation and per-window metric computation (`calculateMetrics`),
axis/total RMS (`calculateAxisRMS`, `calculateTotalAcceleration`),
90th-percentile peak (`calculate90thPercentile`) and FFT band RMS
(`calculateFrequencyBandRMS`).

Numbers are idealized as exact arithmetic: the estimator runs over `FVal`
(rationals extended with the JavaScript special values `NaN`, `Infinity`,
`-Infinity`, since the source checks `isNaN` and divides by a possibly
infinite time range), and the metric pipeline runs over `ℝ` (it uses
square roots and trigonometric DFT values).  IEEE-754 rounding and signed
zero are not modelled.
-/

/-- JavaScript `number` values as seen by `calculateActualSampleRate`:
a rational, or one of the special values `NaN`, `Infinity`, `-Infinity`. -/
inductive FVal : Type
  | nan : FVal
  | inf : FVal
  | ninf : FVal
  | num : ℚ → FVal
deriving DecidableEq

namespace FVal

/-- JavaScript subtraction `a - b` on extended values. -/
def sub : FVal → FVal → FVal
  | nan, _ => nan
  | _, nan => nan
  | inf, inf => nan
  | inf, _ => inf
  | ninf, ninf => nan
  | ninf, _ => ninf
  | num _, inf => ninf
  | num _, ninf => inf
  | num a, num b => num (a - b)

/-- JavaScript `isNaN`. -/
def isNaN : FVal → Bool
  | nan => true
  | _ => false

/-- Whether the value is an ordinary finite number. -/
def isFinite : FVal → Bool
  | num _ => true
  | _ => false

/-- JavaScript comparison `0 < a` (false on `NaN`). -/
def gt0 : FVal → Bool
  | inf => true
  | num a => decide (0 < a)
  | _ => false

/-- JavaScript division `a / b` on extended values (signed zero is
collapsed to `0`, so `q / 0 = Infinity` for `q > 0`). -/
def div : FVal → FVal → FVal
  | nan, _ => nan
  | _, nan => nan
  | inf, inf => nan
  | inf, ninf => nan
  | ninf, inf => nan
  | ninf, ninf => nan
  | inf, num b => if b < 0 then ninf else inf
  | ninf, num b => if b < 0 then inf else ninf
  | num _, inf => num 0
  | num _, ninf => num 0
  | num a, num b =>
      if b = 0 then (if a = 0 then nan else if 0 < a then inf else ninf)
      else num (a / b)

end FVal

/-- One decoded accelerometer sample (`DataPoint` in `src/parsers/types.ts`),
parametric in the scalar type: the raw pipeline uses `FVal`, the metric
pipeline uses `ℝ`. -/
structure DataPoint (α : Type) : Type where
  time : α
  ax : α
  ay : α
  az : α
deriving DecidableEq

/-- Result of `calculateActualSampleRate`. -/
structure ActualSampleRateInfo : Type where
  actualSampleRate : FVal
  normalizedData : List (DataPoint FVal)
deriving DecidableEq

/-- `calculateActualSampleRate` from `src/App.tsx`: with fewer than two
points, or a `NaN` first/last timestamp, return rate `0` and the input
unchanged; otherwise shift every `time` by `-t0` and return
`(n - 1) / (tN - t0)` when the range is positive, else rate `0`.
The `length < 2` test is split into the `[]` and `[p]` arms. -/
def calculateActualSampleRate : List (DataPoint FVal) → ActualSampleRateInfo
  | [] => ⟨FVal.num 0, []⟩
  | [p] => ⟨FVal.num 0, [p]⟩
  | p0 :: p1 :: rest =>
      let lastPoint := (p1 :: rest).getLast (List.cons_ne_nil p1 rest)
      if p0.time.isNaN || lastPoint.time.isNaN then
        ⟨FVal.num 0, p0 :: p1 :: rest⟩
      else
        let timeRangeSeconds := lastPoint.time.sub p0.time
        ⟨if timeRangeSeconds.gt0 then
            (FVal.num (((p0 :: p1 :: rest).length - 1 : ℕ) : ℚ)).div timeRangeSeconds
          else FVal.num 0,
          (p0 :: p1 :: rest).map fun pt => { pt with time := pt.time.sub p0.time }⟩

/-! ### Metric pipeline (over `ℝ`) -/

/-- The axis argument `'ax' | 'ay' | 'az'` of `calculateAxisRMS`. -/
inductive Axis : Type
  | ax : Axis
  | ay : Axis
  | az : Axis
deriving DecidableEq

/-- Field access `point[axis]`. -/
def DataPoint.axisVal (p : DataPoint ℝ) : Axis → ℝ
  | Axis.ax => p.ax
  | Axis.ay => p.ay
  | Axis.az => p.az

/-- `calculateAxisRMS`: `sqrt(reduce(sum + p[axis]²) / window.length)`. -/
noncomputable def calculateAxisRMS (window : List (DataPoint ℝ)) (axis : Axis) : ℝ :=
  Real.sqrt
    ((window.foldl (fun sum point => sum + point.axisVal axis * point.axisVal axis) 0) /
      window.length)

/-- `calculateTotalAcceleration`: `sqrt(ax² + ay² + az²)`. -/
noncomputable def calculateTotalAcceleration (point : DataPoint ℝ) : ℝ :=
  Real.sqrt (point.ax * point.ax + point.ay * point.ay + point.az * point.az)

open scoped Classical in
/-- `calculate90thPercentile`: sort the per-sample totals ascending and take
the element at index `floor(length * 0.9)`. -/
noncomputable def calculate90thPercentile (window : List (DataPoint ℝ)) : ℝ :=
  let totals := (window.map calculateTotalAcceleration).insertionSort (· ≤ ·)
  totals.getD ⌊(totals.length : ℝ) * 0.9⌋₊ 0

/-- `rms_total` as computed inline in `calculateMetrics`:
`sqrt(reduce(sum + total²) / totals.length)` over the per-sample totals. -/
noncomputable def calculateTotalRMS (window : List (DataPoint ℝ)) : ℝ :=
  let totals := window.map calculateTotalAcceleration
  Real.sqrt ((totals.foldl (fun sum val => sum + val * val) 0) / totals.length)

/-- `fftSize = 2^ceil(log2 m)` (the padded FFT length of a segment of
length `m`; for `m = 0` the analyzer has already returned). -/
def fftSizeOf (m : ℕ) : ℕ := 2 ^ Nat.clog 2 m

/-- The zero-padded signal: `paddedSignal[j] = signal[j]` for `j < m`,
`0` beyond. -/
def paddedSignal (signal : List ℝ) (j : ℕ) : ℝ := signal.getD j 0

/-- Modelled from the spec: the real part of bin `i` of the forward
discrete Fourier transform computed by the external `fft.js` library
(`fft.realTransform`), whose source is not part of this repository:
`Re X_i = Σ_j x_j · cos(2π i j / N)`. -/
noncomputable def dftRe (x : ℕ → ℝ) (N i : ℕ) : ℝ :=
  ∑ j ∈ Finset.range N, x j * Real.cos (2 * Real.pi * i * j / N)

/-- Modelled from the spec: the imaginary part of bin `i` of the forward
discrete Fourier transform computed by the external `fft.js` library:
`Im X_i = -Σ_j x_j · sin(2π i j / N)`. -/
noncomputable def dftIm (x : ℕ → ℝ) (N i : ℕ) : ℝ :=
  -(∑ j ∈ Finset.range N, x j * Real.sin (2 * Real.pi * i * j / N))

/-- Squared magnitude `real² + imag²` of bin `i`. -/
noncomputable def binPower (signal : List ℝ) (N i : ℕ) : ℝ :=
  dftRe (paddedSignal signal) N i * dftRe (paddedSignal signal) N i +
    dftIm (paddedSignal signal) N i * dftIm (paddedSignal signal) N i

open scoped Classical in
/-- `sumPower` after the bin loop: total squared magnitude of the bins
`i < fftSize/2` whose frequency `i · freqResolution` lies in
`[minFreq, maxFreq)`.  The JavaScript loop bound `i < fftSize / 2` is real
division, so an integer `i` is examined iff `2·i < fftSize`, i.e.
`i < (fftSize + 1) / 2` in natural division: at `fftSize = 1` the loop
runs once, examining bin `0`. -/
noncomputable def bandSumPower (signal : List ℝ) (N : ℕ) (freqResolution minFreq maxFreq : ℝ) : ℝ :=
  ∑ i ∈ Finset.range ((N + 1) / 2),
    if minFreq ≤ i * freqResolution ∧ (i : ℝ) * freqResolution < maxFreq then
      binPower signal N i
    else 0

open scoped Classical in
/-- `count` after the bin loop: how many examined bins fell in the band
(same real-division loop bound `i < fftSize / 2` as `bandSumPower`). -/
noncomputable def bandCount (N : ℕ) (freqResolution minFreq maxFreq : ℝ) : ℕ :=
  ∑ i ∈ Finset.range ((N + 1) / 2),
    if minFreq ≤ i * freqResolution ∧ (i : ℝ) * freqResolution < maxFreq then 1 else 0

/-- `calculateFrequencyBandRMS` from `src/App.tsx`: guard empty windows and
zero rate, zero-pad the per-sample totals to `fftSize`, transform, and
return `sqrt(sumPower / count)` over the in-band bins, or `0` if no bin
was counted. -/
noncomputable def calculateFrequencyBandRMS (window : List (DataPoint ℝ))
    (sampleRate minFreq maxFreq : ℝ) : ℝ :=
  if window.length = 0 ∨ sampleRate = 0 then 0
  else
    let signal := window.map calculateTotalAcceleration
    let fftSize := fftSizeOf signal.length
    let freqResolution := sampleRate / fftSize
    if 0 < bandCount fftSize freqResolution minFreq maxFreq then
      Real.sqrt (bandSumPower signal fftSize freqResolution minFreq maxFreq /
        bandCount fftSize freqResolution minFreq maxFreq)
    else 0

/-- The 17 metric names (`MetricType` in `src/App.tsx`). -/
inductive MetricType : Type
  | rms_x | rms_y | rms_z | rms_total | percentile_90
  | band_0_1 | band_1_5 | band_5_10 | band_10_20 | band_20_30
  | band_30_40 | band_40_50 | band_50_60 | band_60_70 | band_70_80
  | band_80_90 | band_90_100
deriving DecidableEq

/-- The per-window computation behind each metric field assignment in
`calculateMetrics`. -/
noncomputable def computeMetric (window : List (DataPoint ℝ)) (sampleRate : ℝ) :
    MetricType → ℝ
  | MetricType.rms_x => calculateAxisRMS window Axis.ax
  | MetricType.rms_y => calculateAxisRMS window Axis.ay
  | MetricType.rms_z => calculateAxisRMS window Axis.az
  | MetricType.rms_total => calculateTotalRMS window
  | MetricType.percentile_90 => calculate90thPercentile window
  | MetricType.band_0_1 => calculateFrequencyBandRMS window sampleRate 0 1
  | MetricType.band_1_5 => calculateFrequencyBandRMS window sampleRate 1 5
  | MetricType.band_5_10 => calculateFrequencyBandRMS window sampleRate 5 10
  | MetricType.band_10_20 => calculateFrequencyBandRMS window sampleRate 10 20
  | MetricType.band_20_30 => calculateFrequencyBandRMS window sampleRate 20 30
  | MetricType.band_30_40 => calculateFrequencyBandRMS window sampleRate 30 40
  | MetricType.band_40_50 => calculateFrequencyBandRMS window sampleRate 40 50
  | MetricType.band_50_60 => calculateFrequencyBandRMS window sampleRate 50 60
  | MetricType.band_60_70 => calculateFrequencyBandRMS window sampleRate 60 70
  | MetricType.band_70_80 => calculateFrequencyBandRMS window sampleRate 70 80
  | MetricType.band_80_90 => calculateFrequencyBandRMS window sampleRate 80 90
  | MetricType.band_90_100 => calculateFrequencyBandRMS window sampleRate 90 100

/-- `MetricDataPoint`: times are in seconds, `absoluteTime` in epoch
milliseconds (`Date`); the optional metric fields are one mapping. -/
structure MetricDataPoint : Type where
  time : ℝ
  absoluteTime : ℝ
  values : MetricType → Option ℝ

/-- The record body of one loop iteration of `calculateMetrics`:
representative time is the window's last sample,
`absoluteTime = startTime.getTime() + maxTimeInWindow * 1000`, and each
selected metric is computed on the window. -/
noncomputable def mkMetricPoint (window : List (DataPoint ℝ)) (sampleRate startTimeMs : ℝ)
    (selectedMetrics : MetricType → Bool) : MetricDataPoint :=
  let maxTimeInWindow := (window.getLastD ⟨0, 0, 0, 0⟩).time
  { time := maxTimeInWindow
    absoluteTime := startTimeMs + maxTimeInWindow * 1000
    values := fun m =>
      if selectedMetrics m then some (computeMetric window sampleRate m) else none }

/-- `windowSizeSamples = Math.max(1, Math.round(windowSeconds * sampleRate))`. -/
noncomputable def windowSizeSamplesOf (windowSeconds sampleRate : ℝ) : ℕ :=
  max 1 (round (windowSeconds * sampleRate)).toNat

/-- `overlapSamples = Math.floor(windowSizeSamples * (overlapPct / 100))`
(kept in `ℤ`: the JavaScript value can be negative when `overlapPct < 0`). -/
noncomputable def overlapSamplesOf (windowSizeSamples : ℕ) (overlapPct : ℝ) : ℤ :=
  ⌊(windowSizeSamples : ℝ) * (overlapPct / 100)⌋

/-- `stepSize = Math.max(1, windowSizeSamples - overlapSamples)`; always at
least `1`, hence a natural number. -/
def stepSizeOf (windowSizeSamples : ℕ) (overlapSamples : ℤ) : ℕ :=
  (max 1 ((windowSizeSamples : ℤ) - overlapSamples)).toNat

theorem stepSizeOf_pos (ws : ℕ) (ov : ℤ) : 0 < stepSizeOf ws ov := by
  unfold stepSizeOf
  omega

/-- The window loop of `calculateMetrics`, started at index `i`: while
`i < n`, emit the half-open range `[i, min (i + ws) n)`, break if the
sliced window would be empty, and advance by `step`. -/
def windowRangesAux (n ws step : ℕ) (hstep : 0 < step) (i : ℕ) : List (ℕ × ℕ) :=
  if h : i < n then
    if min (i + ws) n - i = 0 then []
    else (i, min (i + ws) n) :: windowRangesAux n ws step hstep (i + step)
  else []
termination_by n - i
decreasing_by omega

/-- All window ranges emitted by `calculateMetrics` on a series of length
`n`: the loop starts at `i = 0`. -/
def windowRanges (n ws step : ℕ) (hstep : 0 < step) : List (ℕ × ℕ) :=
  windowRangesAux n ws step hstep 0

/-- `dataPoints.slice(start, end)`. -/
def sliceRange (dataPoints : List (DataPoint ℝ)) (r : ℕ × ℕ) : List (DataPoint ℝ) :=
  (dataPoints.take r.2).drop r.1

/-- `calculateMetrics` from `src/App.tsx`.  The early `return` on an empty
series or zero rate — which leaves no output — is `none`; otherwise the
result list holds one record per emitted window, in window order.
`overlapPct` is the percentage (`overlapFraction * 100`), `startTimeMs`
is `startTime.getTime()`. -/
noncomputable def calculateMetrics (dataPoints : List (DataPoint ℝ))
    (windowSeconds overlapPct sampleRate startTimeMs : ℝ)
    (selectedMetrics : MetricType → Bool) : Option (List MetricDataPoint) :=
  if dataPoints.length = 0 ∨ sampleRate = 0 then none
  else
    let windowSizeSamples := windowSizeSamplesOf windowSeconds sampleRate
    let stepSize := stepSizeOf windowSizeSamples (overlapSamplesOf windowSizeSamples overlapPct)
    some
      ((windowRanges dataPoints.length windowSizeSamples stepSize
          (stepSizeOf_pos windowSizeSamples (overlapSamplesOf windowSizeSamples overlapPct))).map
        fun r => mkMetricPoint (sliceRange dataPoints r) sampleRate startTimeMs selectedMetrics)

/-! ### Helper lemmas -/

theorem calculateActualSampleRate_cons_cons (a b : DataPoint FVal) (l : List (DataPoint FVal))
    (t0 tN : ℚ) (ht0 : a.time = FVal.num t0)
    (htN : ((b :: l).getLast (List.cons_ne_nil b l)).time = FVal.num tN) :
    calculateActualSampleRate (a :: b :: l) =
      ⟨if 0 < tN - t0 then FVal.num ((l.length + 1 : ℚ) / (tN - t0)) else FVal.num 0,
        (a :: b :: l).map fun pt => { pt with time := pt.time.sub (FVal.num t0) }⟩ := by
  rw [calculateActualSampleRate]
  simp only [ht0, htN, FVal.isNaN, Bool.or_self, Bool.false_eq_true, if_false, FVal.sub,
    FVal.gt0, List.length_cons]
  congr 1
  by_cases hpos : 0 < tN - t0
  · rw [if_pos (by simpa using hpos), if_pos hpos, FVal.div,
      if_neg (by intro hc; rw [hc] at hpos; exact lt_irrefl 0 hpos)]
    congr 1
    push_cast
    ring
  · rw [if_neg (by simpa using hpos), if_neg hpos]

theorem getLast_time_of_getLast? (b : DataPoint FVal) (l : List (DataPoint FVal))
    (pN : DataPoint FVal) (h : (b :: l).getLast? = some pN) :
    (b :: l).getLast (List.cons_ne_nil b l) = pN := by
  rw [List.getLast?_eq_getLast (b :: l) (List.cons_ne_nil b l)] at h
  exact Option.some.inj h

/-! ### Claims -/

/-- C1: for every series with at least two samples whose first and last
timestamps are finite with `t0 < tN`, the estimator returns
`(n − 1) / (tN − t0)`; in particular a two-sample series with times
`[0, T]`, `T > 0`, yields exactly `1 / T`. -/
theorem sampleRate_formula_and_two_sample :
    (∀ (pts : List (DataPoint FVal)) (p0 pN : DataPoint FVal) (t0 tN : ℚ),
        2 ≤ pts.length → pts.head? = some p0 → pts.getLast? = some pN →
        p0.time = FVal.num t0 → pN.time = FVal.num tN → t0 < tN →
        (calculateActualSampleRate pts).actualSampleRate =
          FVal.num (((pts.length : ℚ) - 1) / (tN - t0)))
    ∧ (∀ (p q : DataPoint FVal) (T : ℚ),
        p.time = FVal.num 0 → q.time = FVal.num T → 0 < T →
        (calculateActualSampleRate [p, q]).actualSampleRate = FVal.num (1 / T)) := by
  constructor
  · intro pts p0 pN t0 tN hlen hhead hlast ht0 htN hlt
    rcases pts with _ | ⟨a, _ | ⟨b, l⟩⟩
    · simp at hlen
    · simp at hlen
    · have ha : a = p0 := by simpa using hhead
      have hb : (b :: l).getLast (List.cons_ne_nil b l) = pN := by
        apply getLast_time_of_getLast?
        rw [← List.getLast?_cons_cons]
        exact hlast
      rw [calculateActualSampleRate_cons_cons a b l t0 tN (ha ▸ ht0) (hb ▸ htN)]
      simp only [if_pos (by linarith : (0:ℚ) < tN - t0)]
      congr 1
      simp only [List.length_cons]
      push_cast
      ring
  · intro p q T ht0 htN hT
    have : ([q].getLast (List.cons_ne_nil q [])).time = FVal.num T := by simpa using htN
    rw [calculateActualSampleRate_cons_cons p q [] 0 T ht0 this]
    simp only [if_pos (by linarith : (0:ℚ) < T - 0), List.length_nil]
    norm_num

/-- Witness for C1 at the two-sample series with times `[0, 1/2]`. -/
theorem sampleRate_formula_and_two_sample_witness :
    (calculateActualSampleRate
        [⟨FVal.num 0, FVal.num 0, FVal.num 0, FVal.num 0⟩,
          ⟨FVal.num (1 / 2), FVal.num 0, FVal.num 0, FVal.num 0⟩]).actualSampleRate =
      FVal.num (1 / (1 / 2)) :=
  sampleRate_formula_and_two_sample.2 _ _ (1 / 2) rfl rfl (by norm_num)

theorem calculateActualSampleRate_eq (a b : DataPoint FVal) (l : List (DataPoint FVal)) :
    calculateActualSampleRate (a :: b :: l) =
      if (a.time.isNaN || ((b :: l).getLast (List.cons_ne_nil b l)).time.isNaN) = true then
        ⟨FVal.num 0, a :: b :: l⟩
      else
        ⟨if (((b :: l).getLast (List.cons_ne_nil b l)).time.sub a.time).gt0 = true then
            (FVal.num (((a :: b :: l).length - 1 : ℕ) : ℚ)).div
              (((b :: l).getLast (List.cons_ne_nil b l)).time.sub a.time)
          else FVal.num 0,
          (a :: b :: l).map fun pt => { pt with time := pt.time.sub a.time }⟩ := rfl

/-- C2 counterexample: on the two-sample series with both timestamps `5`
(so `tN − t0 = 0`), the estimator returns rate `0` but a *modified* series:
the times are normalized to `0`, so the output is not the input passed
through unchanged. -/
theorem sampleRate_zero_passthrough_counterexample :
    (calculateActualSampleRate
        [⟨FVal.num 5, FVal.num 0, FVal.num 0, FVal.num 0⟩,
          ⟨FVal.num 5, FVal.num 0, FVal.num 0, FVal.num 0⟩]).actualSampleRate = FVal.num 0 ∧
    (calculateActualSampleRate
        [⟨FVal.num 5, FVal.num 0, FVal.num 0, FVal.num 0⟩,
          ⟨FVal.num 5, FVal.num 0, FVal.num 0, FVal.num 0⟩]).normalizedData ≠
      [⟨FVal.num 5, FVal.num 0, FVal.num 0, FVal.num 0⟩,
        ⟨FVal.num 5, FVal.num 0, FVal.num 0, FVal.num 0⟩] := by
  have h := calculateActualSampleRate_cons_cons
    ⟨FVal.num 5, FVal.num 0, FVal.num 0, FVal.num 0⟩
    ⟨FVal.num 5, FVal.num 0, FVal.num 0, FVal.num 0⟩ [] 5 5 rfl rfl
  rw [h, if_neg (by norm_num : ¬ (0:ℚ) < 5 - 5)]
  refine ⟨rfl, ?_⟩
  simp only [List.map_cons, List.map_nil, FVal.sub, ne_eq, List.cons.injEq,
    DataPoint.mk.injEq, FVal.num.injEq]
  intro hc
  norm_num at hc

/-- C2 amended: the estimator returns rate `0` whenever `n < 2`, the first
or last timestamp is not a finite number, or `tN − t0 ≤ 0`; the series is
returned unmodified in the `n < 2` and `NaN` cases, but in the finite
`tN − t0 ≤ 0` case it is the *time-normalized* series (each `time` shifted
by `−t0`), not the unmodified input. -/
theorem sampleRate_zero_amended :
    (∀ pts : List (DataPoint FVal), pts.length < 2 →
        calculateActualSampleRate pts = ⟨FVal.num 0, pts⟩)
    ∧ (∀ (pts : List (DataPoint FVal)) (p0 pN : DataPoint FVal), 2 ≤ pts.length →
        pts.head? = some p0 → pts.getLast? = some pN →
        (p0.time.isNaN || pN.time.isNaN) = true →
        calculateActualSampleRate pts = ⟨FVal.num 0, pts⟩)
    ∧ (∀ (pts : List (DataPoint FVal)) (p0 pN : DataPoint FVal), 2 ≤ pts.length →
        pts.head? = some p0 → pts.getLast? = some pN →
        (p0.time.isFinite = false ∨ pN.time.isFinite = false) →
        (calculateActualSampleRate pts).actualSampleRate = FVal.num 0)
    ∧ (∀ (pts : List (DataPoint FVal)) (p0 pN : DataPoint FVal) (t0 tN : ℚ),
        2 ≤ pts.length → pts.head? = some p0 → pts.getLast? = some pN →
        p0.time = FVal.num t0 → pN.time = FVal.num tN → tN - t0 ≤ 0 →
        calculateActualSampleRate pts =
          ⟨FVal.num 0, pts.map fun pt => { pt with time := pt.time.sub (FVal.num t0) }⟩) := by
  refine ⟨?_, ?_, ?_, ?_⟩
  · intro pts h
    rcases pts with _ | ⟨a, _ | ⟨b, l⟩⟩
    · rfl
    · rfl
    · simp at h
      omega
  · intro pts p0 pN hlen hhead hlast hnan
    rcases pts with _ | ⟨a, _ | ⟨b, l⟩⟩
    · simp at hlen
    · simp at hlen
    · have ha : a = p0 := by simpa using hhead
      have hb : (b :: l).getLast (List.cons_ne_nil b l) = pN := by
        apply getLast_time_of_getLast?
        rw [← List.getLast?_cons_cons]
        exact hlast
      rw [calculateActualSampleRate_eq, ha, hb, if_pos hnan]
  · intro pts p0 pN hlen hhead hlast hfin
    rcases pts with _ | ⟨a, _ | ⟨b, l⟩⟩
    · simp at hlen
    · simp at hlen
    · have ha : a = p0 := by simpa using hhead
      have hb : (b :: l).getLast (List.cons_ne_nil b l) = pN := by
        apply getLast_time_of_getLast?
        rw [← List.getLast?_cons_cons]
        exact hlast
      rw [calculateActualSampleRate_eq, ha, hb]
      rcases h0 : p0.time with _ | _ | _ | q0 <;>
        rcases hN : pN.time with _ | _ | _ | qN <;>
          simp_all [FVal.isNaN, FVal.isFinite, FVal.sub, FVal.gt0, FVal.div]
  · intro pts p0 pN t0 tN hlen hhead hlast ht0 htN hle
    rcases pts with _ | ⟨a, _ | ⟨b, l⟩⟩
    · simp at hlen
    · simp at hlen
    · have ha : a = p0 := by simpa using hhead
      have hb : ((b :: l).getLast (List.cons_ne_nil b l)).time = FVal.num tN := by
        have : (b :: l).getLast (List.cons_ne_nil b l) = pN := by
          apply getLast_time_of_getLast?
          rw [← List.getLast?_cons_cons]
          exact hlast
        rw [this, htN]
      rw [calculateActualSampleRate_cons_cons a b l t0 tN (ha ▸ ht0) hb,
        if_neg (by linarith : ¬ (0:ℚ) < tN - t0), ha]

/-- Witness for the amended C2 at the two-sample series with both
timestamps `5`. -/
theorem sampleRate_zero_amended_witness :
    calculateActualSampleRate
        [⟨FVal.num 5, FVal.num 0, FVal.num 0, FVal.num 0⟩,
          ⟨FVal.num 5, FVal.num 0, FVal.num 0, FVal.num 0⟩] =
      ⟨FVal.num 0,
        ([⟨FVal.num 5, FVal.num 0, FVal.num 0, FVal.num 0⟩,
          ⟨FVal.num 5, FVal.num 0, FVal.num 0, FVal.num 0⟩] : List (DataPoint FVal)).map
          fun pt => { pt with time := pt.time.sub (FVal.num 5) }⟩ :=
  sampleRate_zero_amended.2.2.2
    ([⟨FVal.num 5, FVal.num 0, FVal.num 0, FVal.num 0⟩,
      ⟨FVal.num 5, FVal.num 0, FVal.num 0, FVal.num 0⟩] : List (DataPoint FVal))
    (⟨FVal.num 5, FVal.num 0, FVal.num 0, FVal.num 0⟩ : DataPoint FVal)
    (⟨FVal.num 5, FVal.num 0, FVal.num 0, FVal.num 0⟩ : DataPoint FVal) 5 5
    (by norm_num) rfl rfl rfl rfl (by norm_num)

/-- C10: time normalization touches only the `time` field — the returned
series has the same length and order, and every sample's `ax`, `ay`, `az`
are unchanged. -/
theorem normalization_preserves_axes (pts : List (DataPoint FVal)) :
    (calculateActualSampleRate pts).normalizedData.length = pts.length ∧
    (calculateActualSampleRate pts).normalizedData.map (fun p => (p.ax, p.ay, p.az)) =
      pts.map fun p => (p.ax, p.ay, p.az) := by
  rcases pts with _ | ⟨a, _ | ⟨b, l⟩⟩
  · exact ⟨rfl, rfl⟩
  · exact ⟨rfl, rfl⟩
  · rw [calculateActualSampleRate_eq]
    by_cases h : (a.time.isNaN || ((b :: l).getLast (List.cons_ne_nil b l)).time.isNaN) = true
    · rw [if_pos h]
      exact ⟨rfl, rfl⟩
    · rw [if_neg h]
      refine ⟨by simp, ?_⟩
      simp [List.map_map, Function.comp]

/-- Closed form of the window loop: the `j`-th emitted range starting from
index `i` is `[i + j·step, min (i + j·step + ws) n)`, provided `ws ≥ 1`
(so the empty-window break never fires). -/
theorem windowRangesAux_getElem (n ws step : ℕ) (hws : 0 < ws) (hstep : 0 < step) :
    ∀ (j i : ℕ), (windowRangesAux n ws step hstep i)[j]? =
      if i + j * step < n then some (i + j * step, min (i + j * step + ws) n) else none := by
  intro j
  induction j with
  | zero =>
    intro i
    rw [windowRangesAux]
    by_cases h : i < n
    · rw [dif_pos h, if_neg (by omega : ¬ min (i + ws) n - i = 0)]
      simp [h]
    · rw [dif_neg h]
      simp only [List.getElem?_nil]
      rw [if_neg (by omega)]
  | succ j ih =>
    intro i
    rw [windowRangesAux]
    by_cases h : i < n
    · rw [dif_pos h, if_neg (by omega : ¬ min (i + ws) n - i = 0),
        List.getElem?_cons_succ, ih (i + step)]
      have harg : i + step + j * step = i + (j + 1) * step := by ring
      rw [harg]
    · rw [dif_neg h]
      simp only [List.getElem?_nil]
      rw [if_neg (by omega)]

/-- Closed form of `windowRanges`: window `j` is
`[j·step, min (j·step + ws) n)` while `j·step < n`. -/
theorem windowRanges_getElem (n ws step : ℕ) (hws : 0 < ws) (hstep : 0 < step) (j : ℕ) :
    (windowRanges n ws step hstep)[j]? =
      if j * step < n then some (j * step, min (j * step + ws) n) else none := by
  rw [windowRanges, windowRangesAux_getElem n ws step hws hstep j 0]
  simp

theorem windowRanges_mem (n ws step : ℕ) (hws : 0 < ws) (hstep : 0 < step) (r : ℕ × ℕ) :
    r ∈ windowRanges n ws step hstep ↔
      ∃ j, j * step < n ∧ r = (j * step, min (j * step + ws) n) := by
  rw [List.mem_iff_getElem?]
  constructor
  · rintro ⟨j, hj⟩
    rw [windowRanges_getElem n ws step hws hstep j] at hj
    by_cases h : j * step < n
    · rw [if_pos h] at hj
      exact ⟨j, h, (Option.some.inj hj).symm⟩
    · rw [if_neg h] at hj
      exact absurd hj (by simp)
  · rintro ⟨j, hj, hr⟩
    exact ⟨j, by rw [windowRanges_getElem n ws step hws hstep j, if_pos hj, hr]⟩

theorem windowSizeSamplesOf_pos (windowSeconds sampleRate : ℝ) :
    0 < windowSizeSamplesOf windowSeconds sampleRate := by
  unfold windowSizeSamplesOf
  omega

/-- C3: with `overlapFraction = overlapPct/100 ∈ [0, 1)`, the segmenter's
`windowSizeSamples = max(1, round(windowSeconds·rate))`,
`overlapSamples = floor(windowSizeSamples·f)` and
`step = max(1, windowSizeSamples − overlapSamples)` make any two
consecutive emitted windows that are both full-size share exactly
`floor(windowSizeSamples · f)` sample indices. -/
theorem consecutive_window_overlap
    (dataPoints : List (DataPoint ℝ)) (windowSeconds overlapPct sampleRate : ℝ)
    (ws : ℕ) (ov : ℤ) (step : ℕ) (hstep0 : 0 < step)
    (hne : dataPoints ≠ []) (hrate : 0 < sampleRate)
    (hpct0 : 0 ≤ overlapPct) (hpct1 : overlapPct < 100)
    (hws : ws = windowSizeSamplesOf windowSeconds sampleRate)
    (hov : ov = overlapSamplesOf ws overlapPct)
    (hst : step = stepSizeOf ws ov)
    (j s1 e1 s2 e2 : ℕ)
    (h1 : (windowRanges dataPoints.length ws step hstep0)[j]? = some (s1, e1))
    (h2 : (windowRanges dataPoints.length ws step hstep0)[j + 1]? = some (s2, e2))
    (hfull1 : e1 - s1 = ws) (hfull2 : e2 - s2 = ws) :
    (Finset.Ico s1 e1 ∩ Finset.Ico s2 e2).card =
      (overlapSamplesOf ws overlapPct).toNat := by
  have hws0 : 0 < ws := hws ▸ windowSizeSamplesOf_pos windowSeconds sampleRate
  -- bounds on the overlap: `0 ≤ ov < ws` because the fraction is in `[0, 1)`
  have hfrac0 : (0 : ℝ) ≤ overlapPct / 100 := by positivity
  have hfrac1 : overlapPct / 100 < 1 := (div_lt_one (by norm_num : (0:ℝ) < 100)).2 hpct1
  have hov0 : 0 ≤ ov := by
    rw [hov, overlapSamplesOf]
    exact Int.floor_nonneg.2 (by positivity)
  have hovws : ov < (ws : ℤ) := by
    rw [hov, overlapSamplesOf]
    apply Int.floor_lt.2
    push_cast
    calc (ws : ℝ) * (overlapPct / 100) < (ws : ℝ) * 1 :=
          mul_lt_mul_of_pos_left hfrac1 (by exact_mod_cast hws0)
      _ = (ws : ℝ) := mul_one _
  have hstep : (step : ℤ) = (ws : ℤ) - ov := by
    rw [hst, stepSizeOf]
    omega
  -- the closed form of the two consecutive windows
  rw [windowRanges_getElem dataPoints.length ws step hws0 hstep0 j] at h1
  rw [windowRanges_getElem dataPoints.length ws step hws0 hstep0 (j + 1)] at h2
  by_cases hj1 : j * step < dataPoints.length
  swap
  · rw [if_neg hj1] at h1
    exact absurd h1 (by simp)
  rw [if_pos hj1] at h1
  by_cases hj2 : (j + 1) * step < dataPoints.length
  swap
  · rw [if_neg hj2] at h2
    exact absurd h2 (by simp)
  rw [if_pos hj2] at h2
  obtain ⟨hs1, he1⟩ : j * step = s1 ∧ min (j * step + ws) dataPoints.length = e1 := by
    have := Option.some.inj h1
    exact ⟨congrArg Prod.fst this, congrArg Prod.snd this⟩
  obtain ⟨hs2, he2⟩ : (j + 1) * step = s2 ∧ min ((j + 1) * step + ws) dataPoints.length = e2 := by
    have := Option.some.inj h2
    exact ⟨congrArg Prod.fst this, congrArg Prod.snd this⟩
  have hsucc : (j + 1) * step = j * step + step := by ring
  have hcard : e1 = s1 + ws := by omega
  have hcard2 : e2 = s2 + ws := by omega
  have hs2s1 : s2 = s1 + step := by omega
  rw [hcard, hcard2, hs2s1, Finset.Ico_inter_Ico, Nat.card_Ico, ← hov]
  omega

/-- Witness for C3: 10 samples, 4-sample windows, 50% overlap — windows
`[0,4)` and `[2,6)` share `⌊4·0.5⌋ = 2` samples. -/
theorem consecutive_window_overlap_witness :
    (Finset.Ico 0 4 ∩ Finset.Ico 2 6).card = (overlapSamplesOf 4 50).toNat := by
  have hws : (4 : ℕ) = windowSizeSamplesOf 4 1 := by
    rw [windowSizeSamplesOf, round_eq]
    norm_num
    decide
  have hov : (2 : ℤ) = overlapSamplesOf 4 50 := by
    rw [overlapSamplesOf]
    norm_num
  have hst : (2 : ℕ) = stepSizeOf 4 2 := by rw [stepSizeOf]; decide
  have h1 : (windowRanges (List.replicate 10 (⟨0, 0, 0, 0⟩ : DataPoint ℝ)).length 4 2
      (by norm_num))[0]? = some (0, 4) := by
    rw [windowRanges_getElem _ 4 2 (by norm_num) (by norm_num) 0]
    norm_num
  have h2 : (windowRanges (List.replicate 10 (⟨0, 0, 0, 0⟩ : DataPoint ℝ)).length 4 2
      (by norm_num))[0 + 1]? = some (2, 6) := by
    rw [windowRanges_getElem _ 4 2 (by norm_num) (by norm_num) 1]
    norm_num
  exact consecutive_window_overlap (List.replicate 10 ⟨0, 0, 0, 0⟩) 4 50 1 4 2 2
    (by norm_num) (by simp) (by norm_num) (by norm_num) (by norm_num)
    hws hov hst 0 0 4 2 6 h1 h2 (by norm_num) (by norm_num)

/-- C4: with `overlapFraction = 0`, the emitted windows are pairwise
disjoint half-open sample ranges whose union covers every sample index
of the series exactly once (an index `k` is covered iff `k < n`). -/
theorem zero_overlap_partition
    (dataPoints : List (DataPoint ℝ)) (windowSeconds sampleRate : ℝ)
    (ws step : ℕ) (hstep0 : 0 < step)
    (hne : dataPoints ≠ []) (hrate : 0 < sampleRate)
    (hws : ws = windowSizeSamplesOf windowSeconds sampleRate)
    (hst : step = stepSizeOf ws (overlapSamplesOf ws 0)) :
    List.Pairwise (fun r r' : ℕ × ℕ => ∀ k, ¬(r.1 ≤ k ∧ k < r.2 ∧ r'.1 ≤ k ∧ k < r'.2))
        (windowRanges dataPoints.length ws step hstep0) ∧
      ∀ k, k < dataPoints.length ↔
        ∃ r ∈ windowRanges dataPoints.length ws step hstep0, r.1 ≤ k ∧ k < r.2 := by
  have hws0 : 0 < ws := hws ▸ windowSizeSamplesOf_pos windowSeconds sampleRate
  have hov : overlapSamplesOf ws 0 = 0 := by
    rw [overlapSamplesOf]
    norm_num
  have hstws : step = ws := by
    rw [hst, hov, stepSizeOf]
    omega
  have hsymm : ws = step := hstws.symm
  subst hsymm
  constructor
  · rw [List.pairwise_iff_getElem]
    intro i j hi hj hij k
    have hgi := List.getElem?_eq_getElem hi
    have hgj := List.getElem?_eq_getElem hj
    rw [windowRanges_getElem dataPoints.length ws ws hws0 hstep0 i] at hgi
    rw [windowRanges_getElem dataPoints.length ws ws hws0 hstep0 j] at hgj
    by_cases hin : i * ws < dataPoints.length
    swap
    · rw [if_neg hin] at hgi
      exact absurd hgi (by simp)
    by_cases hjn : j * ws < dataPoints.length
    swap
    · rw [if_neg hjn] at hgj
      exact absurd hgj (by simp)
    rw [if_pos hin] at hgi
    rw [if_pos hjn] at hgj
    rw [← Option.some.inj hgi, ← Option.some.inj hgj]
    have hmul : (i + 1) * ws ≤ j * ws := Nat.mul_le_mul_right ws hij
    have hexp : (i + 1) * ws = i * ws + ws := by ring
    rintro ⟨hk1, hk2, hk3, hk4⟩
    simp only [min_le_iff] at hk2
    omega
  · intro k
    constructor
    · intro hk
      refine ⟨(k / ws * ws, min (k / ws * ws + ws) dataPoints.length), ?_, ?_, ?_⟩
      · rw [windowRanges_mem dataPoints.length ws ws hws0 hstep0]
        exact ⟨k / ws, lt_of_le_of_lt (Nat.div_mul_le_self k ws) hk, rfl⟩
      · exact Nat.div_mul_le_self k ws
      · have hmod : k % ws < ws := Nat.mod_lt k hws0
        have hdm : ws * (k / ws) + k % ws = k := Nat.div_add_mod k ws
        have hlt : k < k / ws * ws + ws := by
          rw [Nat.mul_comm (k / ws) ws]
          omega
        exact lt_min hlt hk
    · rintro ⟨r, hr, hk1, hk2⟩
      rw [windowRanges_mem dataPoints.length ws ws hws0 hstep0] at hr
      obtain ⟨j, hjn, rfl⟩ := hr
      simp only [lt_min_iff] at hk2
      exact hk2.2

/-- Witness for C4: 3 samples, 2-sample windows, zero overlap — windows
`[0,2)` and `[2,3)` partition the indices `{0, 1, 2}`. -/
theorem zero_overlap_partition_witness :
    List.Pairwise (fun r r' : ℕ × ℕ => ∀ k, ¬(r.1 ≤ k ∧ k < r.2 ∧ r'.1 ≤ k ∧ k < r'.2))
        (windowRanges (List.replicate 3 (⟨0, 0, 0, 0⟩ : DataPoint ℝ)).length 2 2
          (by norm_num)) ∧
      ∀ k, k < (List.replicate 3 (⟨0, 0, 0, 0⟩ : DataPoint ℝ)).length ↔
        ∃ r ∈ windowRanges (List.replicate 3 (⟨0, 0, 0, 0⟩ : DataPoint ℝ)).length 2 2
          (by norm_num), r.1 ≤ k ∧ k < r.2 := by
  have hws : (2 : ℕ) = windowSizeSamplesOf 2 1 := by
    rw [windowSizeSamplesOf, round_eq]
    norm_num
    decide
  have hst : (2 : ℕ) = stepSizeOf 2 (overlapSamplesOf 2 0) := by
    rw [stepSizeOf, overlapSamplesOf]
    norm_num
    decide
  exact zero_overlap_partition (List.replicate 3 ⟨0, 0, 0, 0⟩) 2 1 2 2 (by norm_num)
    (by simp) (by norm_num) hws hst

theorem sliceRange_getLastD (l : List (DataPoint ℝ)) (s e : ℕ) (hse : s < e)
    (hen : e ≤ l.length) :
    (sliceRange l (s, e)).getLastD ⟨0, 0, 0, 0⟩ = l.getD (e - 1) ⟨0, 0, 0, 0⟩ := by
  have hlen : (sliceRange l (s, e)).length = e - s := by
    simp [sliceRange]
    omega
  rw [List.getLastD_eq_getLast?, List.getLast?_eq_getElem?, hlen]
  have hidx : (sliceRange l (s, e))[e - s - 1]? = l[e - 1]? := by
    rw [sliceRange, List.getElem?_drop, List.getElem?_take_of_lt (by omega)]
    congr 1
    omega
  rw [hidx, List.getD_eq_getElem?_getD]

/-- C5: every record emitted by `calculateMetrics` corresponds to a window
`[s, e)`; its representative `time` is the time of the window's **last**
sample (index `e − 1`), and its `absoluteTime` is
`startTime + time · 1000` milliseconds, i.e. `startTime` plus the
representative time in seconds. -/
theorem record_time_is_last_sample
    (dataPoints : List (DataPoint ℝ)) (windowSeconds overlapPct sampleRate startTimeMs : ℝ)
    (sel : MetricType → Bool) (recs : List MetricDataPoint)
    (hm : calculateMetrics dataPoints windowSeconds overlapPct sampleRate startTimeMs sel =
      some recs)
    (j : ℕ) (rec : MetricDataPoint) (hr : recs[j]? = some rec) :
    ∃ s e : ℕ, s < e ∧ e ≤ dataPoints.length ∧
      (windowRanges dataPoints.length (windowSizeSamplesOf windowSeconds sampleRate)
          (stepSizeOf (windowSizeSamplesOf windowSeconds sampleRate)
            (overlapSamplesOf (windowSizeSamplesOf windowSeconds sampleRate) overlapPct))
          (stepSizeOf_pos _ _))[j]? = some (s, e) ∧
      rec.time = (dataPoints.getD (e - 1) ⟨0, 0, 0, 0⟩).time ∧
      rec.absoluteTime = startTimeMs + rec.time * 1000 := by
  rw [calculateMetrics] at hm
  by_cases hguard : dataPoints.length = 0 ∨ sampleRate = 0
  · rw [if_pos hguard] at hm
    exact absurd hm (by simp)
  rw [if_neg hguard] at hm
  have hrecs := Option.some.inj hm
  subst hrecs
  rw [List.getElem?_map] at hr
  set ws := windowSizeSamplesOf windowSeconds sampleRate with hws
  set step := stepSizeOf ws (overlapSamplesOf ws overlapPct) with hstep
  have hws0 : 0 < ws := windowSizeSamplesOf_pos windowSeconds sampleRate
  have hchar := windowRanges_getElem dataPoints.length ws step hws0
    (stepSizeOf_pos ws (overlapSamplesOf ws overlapPct)) j
  by_cases hj : j * step < dataPoints.length
  swap
  · rw [hchar, if_neg hj] at hr
    exact absurd hr (by simp)
  rw [hchar, if_pos hj] at hr
  simp only [Option.map_some'] at hr
  refine ⟨j * step, min (j * step + ws) dataPoints.length, by omega, by omega,
    by rw [hchar, if_pos hj], ?_, ?_⟩
  · rw [← Option.some.inj hr, mkMetricPoint]
    simp only []
    rw [sliceRange_getLastD dataPoints (j * step) (min (j * step + ws) dataPoints.length)
      (by omega) (by omega)]
  · rw [← Option.some.inj hr, mkMetricPoint]

/-- Witness for C5: a one-sample series at time `3`, one-sample windows —
the single record's time is sample `0`'s time and its absolute time is
`100 + time·1000`. -/
theorem record_time_is_last_sample_witness :
    ∃ s e : ℕ, s < e ∧ e ≤ ([⟨3, 1, 2, 2⟩] : List (DataPoint ℝ)).length ∧
      (windowRanges ([⟨3, 1, 2, 2⟩] : List (DataPoint ℝ)).length
          (windowSizeSamplesOf 1 1)
          (stepSizeOf (windowSizeSamplesOf 1 1) (overlapSamplesOf (windowSizeSamplesOf 1 1) 0))
          (stepSizeOf_pos _ _))[0]? = some (s, e) ∧
      (mkMetricPoint (sliceRange [⟨3, 1, 2, 2⟩] (0, 1)) 1 100 fun _ => false).time =
        (([⟨3, 1, 2, 2⟩] : List (DataPoint ℝ)).getD (e - 1) ⟨0, 0, 0, 0⟩).time ∧
      (mkMetricPoint (sliceRange [⟨3, 1, 2, 2⟩] (0, 1)) 1 100 fun _ => false).absoluteTime =
        100 + (mkMetricPoint (sliceRange [⟨3, 1, 2, 2⟩] (0, 1)) 1 100 fun _ => false).time *
          1000 := by
  have hws : windowSizeSamplesOf 1 1 = 1 := by
    rw [windowSizeSamplesOf, round_eq]
    norm_num
  have hstep : stepSizeOf 1 (overlapSamplesOf 1 0) = 1 := by
    rw [stepSizeOf, overlapSamplesOf]
    norm_num
  have hranges : ∀ hp, windowRanges 1 1 1 hp = [(0, 1)] := by
    intro hp
    rw [windowRanges, windowRangesAux]
    norm_num
    rw [windowRangesAux]
    norm_num
  have hm : calculateMetrics [⟨3, 1, 2, 2⟩] 1 0 1 100 (fun _ => false) =
      some [mkMetricPoint (sliceRange [⟨3, 1, 2, 2⟩] (0, 1)) 1 100 fun _ => false] := by
    rw [calculateMetrics, if_neg (by norm_num)]
    simp only [List.length_singleton, hws, hstep]
    rw [hranges]
    simp
  exact record_time_is_last_sample [⟨3, 1, 2, 2⟩] 1 0 1 100 (fun _ => false) _ hm 0
    (mkMetricPoint (sliceRange [⟨3, 1, 2, 2⟩] (0, 1)) 1 100 fun _ => false) (by simp)

theorem foldl_sq_eq_sum (l : List ℝ) :
    ∀ s : ℝ, l.foldl (fun sum val => sum + val * val) s = s + (l.map fun v => v * v).sum := by
  induction l with
  | nil => intro s; simp
  | cons a t ih =>
    intro s
    simp only [List.foldl_cons, List.map_cons, List.sum_cons, ih (s + a * a)]
    ring

theorem foldl_axis_sq_eq_sum (window : List (DataPoint ℝ)) (axis : Axis) :
    ∀ s : ℝ, window.foldl (fun sum point => sum + point.axisVal axis * point.axisVal axis) s =
      s + (window.map fun p => p.axisVal axis * p.axisVal axis).sum := by
  induction window with
  | nil => intro s; simp
  | cons a t ih =>
    intro s
    simp only [List.foldl_cons, List.map_cons, List.sum_cons, ih (s + a.axisVal axis * a.axisVal axis)]
    ring

theorem axisRMS_le_totalRMS (window : List (DataPoint ℝ)) (axis : Axis) :
    calculateAxisRMS window axis ≤ calculateTotalRMS window := by
  simp only [calculateAxisRMS, calculateTotalRMS, List.length_map]
  rw [foldl_axis_sq_eq_sum window axis 0, foldl_sq_eq_sum (window.map calculateTotalAcceleration) 0,
    List.map_map]
  apply Real.sqrt_le_sqrt
  have hsum : (window.map fun p => p.axisVal axis * p.axisVal axis).sum ≤
      (window.map ((fun v => v * v) ∘ calculateTotalAcceleration)).sum := by
    apply List.sum_le_sum
    intro p _
    have hnn : (0:ℝ) ≤ p.ax * p.ax + p.ay * p.ay + p.az * p.az :=
      add_nonneg (add_nonneg (mul_self_nonneg _) (mul_self_nonneg _)) (mul_self_nonneg _)
    simp only [Function.comp_apply, calculateTotalAcceleration, Real.mul_self_sqrt hnn]
    cases axis <;> simp only [DataPoint.axisVal] <;> nlinarith [mul_self_nonneg p.ax,
      mul_self_nonneg p.ay, mul_self_nonneg p.az]
  exact div_le_div_of_nonneg_right (by linarith) (by positivity)

/-- C9: on any non-empty window, `rms_total` is at least each of `rms_x`,
`rms_y` and `rms_z` computed on the same window. -/
theorem rms_total_dominates_axis_rms (window : List (DataPoint ℝ)) (hne : window ≠ []) :
    calculateAxisRMS window Axis.ax ≤ calculateTotalRMS window ∧
      calculateAxisRMS window Axis.ay ≤ calculateTotalRMS window ∧
        calculateAxisRMS window Axis.az ≤ calculateTotalRMS window :=
  ⟨axisRMS_le_totalRMS window Axis.ax, axisRMS_le_totalRMS window Axis.ay,
    axisRMS_le_totalRMS window Axis.az⟩

/-- Witness for C9 on the single-sample window `(time 0, a = (1, 2, 3))`. -/
theorem rms_total_dominates_axis_rms_witness :
    calculateAxisRMS [⟨0, 1, 2, 3⟩] Axis.ax ≤ calculateTotalRMS [⟨0, 1, 2, 3⟩] ∧
      calculateAxisRMS [⟨0, 1, 2, 3⟩] Axis.ay ≤ calculateTotalRMS [⟨0, 1, 2, 3⟩] ∧
        calculateAxisRMS [⟨0, 1, 2, 3⟩] Axis.az ≤ calculateTotalRMS [⟨0, 1, 2, 3⟩] :=
  rms_total_dominates_axis_rms [⟨0, 1, 2, 3⟩] (by simp)

/-- C6: a requested band lying fully at or above the Nyquist frequency
(`minFreq ≥ rate/2`) yields exactly `0` on any non-empty window; and in
general the analyzer returns `sqrt(sumPower/count)` over the examined
bins when `count > 0` and `0` when `count = 0`. -/
theorem band_above_nyquist_is_zero :
    (∀ (window : List (DataPoint ℝ)) (sampleRate minFreq maxFreq : ℝ),
        window ≠ [] → 0 < sampleRate → sampleRate / 2 ≤ minFreq →
        calculateFrequencyBandRMS window sampleRate minFreq maxFreq = 0)
    ∧ (∀ (window : List (DataPoint ℝ)) (sampleRate minFreq maxFreq : ℝ),
        window ≠ [] → sampleRate ≠ 0 →
        calculateFrequencyBandRMS window sampleRate minFreq maxFreq =
          if 0 < bandCount (fftSizeOf window.length)
              (sampleRate / (fftSizeOf window.length : ℝ)) minFreq maxFreq then
            Real.sqrt
              (bandSumPower (window.map calculateTotalAcceleration) (fftSizeOf window.length)
                  (sampleRate / (fftSizeOf window.length : ℝ)) minFreq maxFreq /
                (bandCount (fftSizeOf window.length)
                  (sampleRate / (fftSizeOf window.length : ℝ)) minFreq maxFreq : ℝ))
          else 0) := by
  have hgen : ∀ (window : List (DataPoint ℝ)) (sampleRate minFreq maxFreq : ℝ),
      window ≠ [] → sampleRate ≠ 0 →
      calculateFrequencyBandRMS window sampleRate minFreq maxFreq =
        if 0 < bandCount (fftSizeOf window.length)
            (sampleRate / (fftSizeOf window.length : ℝ)) minFreq maxFreq then
          Real.sqrt
            (bandSumPower (window.map calculateTotalAcceleration) (fftSizeOf window.length)
                (sampleRate / (fftSizeOf window.length : ℝ)) minFreq maxFreq /
              (bandCount (fftSizeOf window.length)
                (sampleRate / (fftSizeOf window.length : ℝ)) minFreq maxFreq : ℝ))
        else 0 := by
    intro window sampleRate minFreq maxFreq hne hrate
    rw [calculateFrequencyBandRMS,
      if_neg (by simp [hrate, List.length_eq_zero.not.2 hne] : ¬ _)]
    simp only [List.length_map]
  refine ⟨?_, hgen⟩
  intro window sampleRate minFreq maxFreq hne hrate hnyq
  rw [hgen window sampleRate minFreq maxFreq hne (ne_of_gt hrate)]
  have hcount : bandCount (fftSizeOf window.length)
      (sampleRate / (fftSizeOf window.length : ℝ)) minFreq maxFreq = 0 := by
    rw [bandCount]
    apply Finset.sum_eq_zero
    intro i hi
    rw [if_neg]
    rintro ⟨hlo, _⟩
    have hiN : i < (fftSizeOf window.length + 1) / 2 := Finset.mem_range.1 hi
    have h2i : 2 * i < fftSizeOf window.length := by omega
    have hN0 : (0:ℝ) < (fftSizeOf window.length : ℝ) := by
      have : 0 < fftSizeOf window.length := by
        rw [fftSizeOf]
        positivity
      exact_mod_cast this
    have hcast : (2 * i : ℝ) < (fftSizeOf window.length : ℝ) := by exact_mod_cast h2i
    have hfreq : (i : ℝ) * (sampleRate / (fftSizeOf window.length : ℝ)) < sampleRate / 2 := by
      rw [mul_div_assoc', div_lt_div_iff₀ hN0 (by norm_num : (0:ℝ) < 2)]
      nlinarith
    linarith
  rw [hcount]
  norm_num

/-- Witness for C6: one-sample window, `rate = 2`, band `[1, 2)` at the
Nyquist frequency `1` — the analyzer returns `0`. -/
theorem band_above_nyquist_is_zero_witness :
    calculateFrequencyBandRMS [⟨0, 0, 0, 0⟩] 2 1 2 = 0 :=
  band_above_nyquist_is_zero.1 [⟨0, 0, 0, 0⟩] 2 1 2 (by simp) (by norm_num) (by norm_num)

/-- C8: the analyzer is total on every non-empty segment: the zero-padded
length is `fftSize = 2^ceil(log2 m)`, which accommodates the whole
segment (`m ≤ fftSize`), a length-1 segment pads to `fftSize = 1`, and a
result value always exists. -/
theorem band_analyzer_total (window : List (DataPoint ℝ)) (sampleRate minFreq maxFreq : ℝ)
    (hne : window ≠ []) :
    window.length ≤ fftSizeOf window.length ∧ fftSizeOf 1 = 1 ∧
      ∃ v : ℝ, calculateFrequencyBandRMS window sampleRate minFreq maxFreq = v :=
  ⟨Nat.le_pow_clog (by norm_num) _, by rw [fftSizeOf, Nat.clog_one_right, pow_zero],
    ⟨_, rfl⟩⟩

/-- Witness for C8 on a one-sample window. -/
theorem band_analyzer_total_witness :
    ([⟨0, 0, 0, 0⟩] : List (DataPoint ℝ)).length ≤
        fftSizeOf ([⟨0, 0, 0, 0⟩] : List (DataPoint ℝ)).length ∧
      fftSizeOf 1 = 1 ∧
      ∃ v : ℝ, calculateFrequencyBandRMS [⟨0, 0, 0, 0⟩] 1 0 1 = v :=
  band_analyzer_total [⟨0, 0, 0, 0⟩] 1 0 1 (by simp)

/-- C7: the metric computer does **not** fail fast on an invalid
configuration.  At `windowSeconds = 0` (invalid: must be `> 0`) with an
empty requested-metric set (also invalid), on a one-sample series with
rate `1`, the call is not rejected: it produces one output record. -/
theorem invalid_config_not_rejected :
    ∃ recs : List MetricDataPoint,
      calculateMetrics [⟨0, 0, 0, 0⟩] 0 50 1 0 (fun _ => false) = some recs ∧
        recs.length = 1 := by
  have hws : windowSizeSamplesOf 0 1 = 1 := by
    rw [windowSizeSamplesOf, round_eq]
    norm_num
  have hov : overlapSamplesOf 1 50 = 0 := by
    rw [overlapSamplesOf]
    norm_num
  have hst : stepSizeOf 1 0 = 1 := by
    rw [stepSizeOf]
    decide
  have hranges : ∀ hp, windowRanges 1 1 1 hp = [(0, 1)] := by
    intro hp
    rw [windowRanges, windowRangesAux]
    norm_num
    rw [windowRangesAux]
    norm_num
  refine ⟨[mkMetricPoint (sliceRange [⟨0, 0, 0, 0⟩] (0, 1)) 1 0 fun _ => false], ?_, rfl⟩
  rw [calculateMetrics, if_neg (by norm_num)]
  simp only [List.length_singleton, hws, hov, hst]
  rw [hranges]
  simp
